import Mathlib

/-!
Verification of the ESP32 LSM6DS3 firmware core: the orientation processor
(gyro integration, angle wrapping, delta-time clamping), the lock-protected
telemetry channels, and the text command path.

Floating-point arithmetic in the firmware is modelled over the real numbers
(for the orientation math) and over the rationals (for the delta-time
computation, whose comparisons are exact at the relevant boundaries).
The external Fusion numerical library (quaternion algebra, Euler conversion)
is modelled mathematically from its documented operations, as the spec treats
it as a black-box engine.
-/

namespace Firmware

/-- Quaternion with scalar part `w` and vector part `(x, y, z)`,
mirroring the external library's quaternion record. -/
structure FusionQuaternion where
  w : ℝ
  x : ℝ
  y : ℝ
  z : ℝ


/-- Three-component vector, mirroring the library's vector record. -/
structure FusionVector where
  x : ℝ
  y : ℝ
  z : ℝ


/-- Euler angles in degrees (roll, pitch, yaw). -/
structure FusionEuler where
  roll : ℝ
  pitch : ℝ
  yaw : ℝ


/-- The identity quaternion `FUSION_IDENTITY_QUATERNION = (1, 0, 0, 0)`. -/
def identityQuaternion : FusionQuaternion := ⟨1, 0, 0, 0⟩

/-- Modelled from the spec: the external library's Hamilton product
`FusionQuaternionMultiply` (the spec's composition `state ∘ q_delta`). -/
def quatMul (a b : FusionQuaternion) : FusionQuaternion :=
  ⟨a.w * b.w - a.x * b.x - a.y * b.y - a.z * b.z,
   a.w * b.x + a.x * b.w + a.y * b.z - a.z * b.y,
   a.w * b.y - a.x * b.z + a.y * b.w + a.z * b.x,
   a.w * b.z + a.x * b.y - a.y * b.x + a.z * b.w⟩

/-- Squared norm of a quaternion. -/
def quatNormSq (q : FusionQuaternion) : ℝ :=
  q.w * q.w + q.x * q.x + q.y * q.y + q.z * q.z

/-- Norm of a quaternion. -/
noncomputable def quatNorm (q : FusionQuaternion) : ℝ :=
  Real.sqrt (quatNormSq q)

/-- Modelled from the spec: the external library's
`FusionQuaternionNormalise`, dividing each component by the norm
(the spec's `normalize`). -/
noncomputable def quatNormalise (q : FusionQuaternion) : FusionQuaternion :=
  ⟨q.w / quatNorm q, q.x / quatNorm q, q.y / quatNorm q, q.z / quatNorm q⟩

/-- `FusionDegreesToRadians`: multiply by pi / 180. -/
noncomputable def FusionDegreesToRadians (d : ℝ) : ℝ := d * (Real.pi / 180)

/-- `FusionRadiansToDegrees`: multiply by 180 / pi. -/
noncomputable def FusionRadiansToDegrees (r : ℝ) : ℝ := r * (180 / Real.pi)

/-- Two-argument arctangent, modelling C's `atan2f` over the reals via the
complex argument function; its range is the half-open interval (-pi, pi]. -/
noncomputable def atan2 (y x : ℝ) : ℝ := Complex.arg (x + y * Complex.I)

/-- Modelled from the spec: the external library's `FusionQuaternionToEuler`,
converting a quaternion to Euler angles in degrees (roll and yaw via `atan2`,
pitch via a clamped arcsine). -/
noncomputable def quatToEuler (q : FusionQuaternion) : FusionEuler :=
  ⟨FusionRadiansToDegrees
      (atan2 (q.w * q.x + q.y * q.z) ((0.5 - q.y * q.y) - q.x * q.x)),
   FusionRadiansToDegrees (Real.arcsin (2 * (q.w * q.y - q.z * q.x))),
   FusionRadiansToDegrees
      (atan2 (q.w * q.z + q.x * q.y) ((0.5 - q.y * q.y) - q.z * q.z))⟩

/-- First loop of `IMUProcessor::wrapAngle`: while the angle is below
-180, add 360. -/
noncomputable def wrapUp (a : ℝ) : ℝ :=
  if h : a < -180 then wrapUp (a + 360) else a
termination_by Nat.ceil ((-180 - a) / 360)
decreasing_by
  have ht : 0 < (-180 - a) / 360 := by
    apply div_pos (by linarith) (by norm_num)
  have h1 : 0 < Nat.ceil ((-180 - a) / 360) := Nat.ceil_pos.mpr ht
  have hrw : (-180 - (a + 360)) / 360 = (-180 - a) / 360 - 1 := by ring
  have h2 : Nat.ceil ((-180 - (a + 360)) / 360) ≤
      Nat.ceil ((-180 - a) / 360) - 1 := by
    rw [Nat.ceil_le, hrw, Nat.cast_sub h1]
    have := Nat.le_ceil ((-180 - a) / 360)
    push_cast
    linarith
  omega

/-- Second loop of `IMUProcessor::wrapAngle`: while the angle is above
180, subtract 360. -/
noncomputable def wrapDown (a : ℝ) : ℝ :=
  if h : 180 < a then wrapDown (a - 360) else a
termination_by Nat.ceil ((a - 180) / 360)
decreasing_by
  have ht : 0 < (a - 180) / 360 := by
    apply div_pos (by linarith) (by norm_num)
  have h1 : 0 < Nat.ceil ((a - 180) / 360) := Nat.ceil_pos.mpr ht
  have hrw : ((a - 360) - 180) / 360 = (a - 180) / 360 - 1 := by ring
  have h2 : Nat.ceil (((a - 360) - 180) / 360) ≤
      Nat.ceil ((a - 180) / 360) - 1 := by
    rw [Nat.ceil_le, hrw, Nat.cast_sub h1]
    have := Nat.le_ceil ((a - 180) / 360)
    push_cast
    linarith
  omega

/-- `IMUProcessor::wrapAngle`: repeated +-360 correction, first raising
angles below -180, then lowering angles above 180. -/
noncomputable def wrapAngle (a : ℝ) : ℝ := wrapDown (wrapUp a)

/-- `IMUProcessor::updateGyroIntegration`: convert the bias-corrected rate
from deg/s to rad/s, and when both the rate magnitude and the elapsed time
are positive, right-multiply the integrator quaternion by the exponential-map
delta quaternion and renormalise; finally convert to Euler angles and wrap
each to produce the accumulated-gyro outputs. Returns the new quaternion and
the `(accumulatedGyroX, accumulatedGyroY, accumulatedGyroZ)` triple. -/
noncomputable def updateGyroIntegration (q : FusionQuaternion)
    (gyroscopeDegPerSec : FusionVector) (deltaTime : ℝ) :
    FusionQuaternion × (ℝ × ℝ × ℝ) :=
  let wx := FusionDegreesToRadians gyroscopeDegPerSec.x
  let wy := FusionDegreesToRadians gyroscopeDegPerSec.y
  let wz := FusionDegreesToRadians gyroscopeDegPerSec.z
  let omegaMag := Real.sqrt (wx * wx + wy * wy + wz * wz)
  let q' :=
    if 0 < omegaMag ∧ 0 < deltaTime then
      let angle := omegaMag * deltaTime
      let halfAngle := 0.5 * angle
      let s := Real.sin halfAngle / omegaMag
      let c := Real.cos halfAngle
      quatNormalise (quatMul q ⟨c, wx * s, wy * s, wz * s⟩)
    else q
  let gyroEuler := quatToEuler q'
  (q', (wrapAngle gyroEuler.roll, wrapAngle gyroEuler.pitch,
        wrapAngle gyroEuler.yaw))

/-- The raw delta time of `IMUProcessor::update`: the uint32 difference
`now - lastUpdateMicros` (wrapping modulo 2^32) divided by 1e6, in seconds.
Exact rational arithmetic; the float comparisons in the source are exact at
the boundaries this models. -/
def deltaTimeRaw (nowMicros lastMicros : ℕ) : ℚ :=
  ((((nowMicros : ℤ) - (lastMicros : ℤ)) % (2 ^ 32) : ℤ) : ℚ) / 1000000

/-- The delta-time guard of `IMUProcessor::update`: if the raw delta is
non-positive or greater than 0.1 s, substitute the fixed fallback 0.01 s. -/
def clampedDeltaTime (nowMicros lastMicros : ℕ) : ℚ :=
  let deltaTime := deltaTimeRaw nowMicros lastMicros
  if deltaTime ≤ 0 ∨ 1 / 10 < deltaTime then 1 / 100 else deltaTime

/-- The state owned by `IMUProcessor`, parametric in the opaque internal
states `A` of the external fusion AHRS engine and `O` of the
gyroscope-offset filter. -/
structure IMUProcessorState (A O : Type) where
  ahrs : A
  offset : O
  fusionEuler : FusionEuler
  gyroQuaternion : FusionQuaternion
  gyroscopeDegPerSec : FusionVector
  accelerometer : FusionVector
  temperatureC : ℝ
  accumulatedGyroX : ℝ
  accumulatedGyroY : ℝ
  accumulatedGyroZ : ℝ
  lastUpdateMicros : ℕ

/-- The external Fusion Engine contract (spec section 4.2): the offset
filter update, the AHRS update, and the orientation query, treated as
black-box functions over their opaque states. -/
structure FusionEngine (A O : Type) where
  offsetUpdate : O → FusionVector → O × FusionVector
  ahrsUpdateNoMagnetometer : A → FusionVector → FusionVector → ℝ → A
  ahrsGetQuaternion : A → FusionQuaternion

/-- One reading of the external sensor (gyro in deg/s, accel in g,
temperature in Celsius) together with the `micros()` timestamp. -/
structure IMUInputs where
  gyro : FusionVector
  accel : FusionVector
  temperatureC : ℝ
  nowMicros : ℕ

/-- `IMUProcessor::resetGyroIntegration`: set the integrator quaternion back
to the identity and zero the three accumulated-angle fields; nothing else
is touched. -/
def resetGyroIntegration {A O : Type} (s : IMUProcessorState A O) :
    IMUProcessorState A O :=
  { s with gyroQuaternion := identityQuaternion,
           accumulatedGyroX := 0,
           accumulatedGyroY := 0,
           accumulatedGyroZ := 0 }

/-- `IMUProcessor::update`: sample the sensor, compute and clamp the delta
time, run the offset filter, advance the AHRS, convert its quaternion to
Euler angles, and advance the gyro-only integrator. -/
noncomputable def IMUProcessorUpdate {A O : Type} (E : FusionEngine A O)
    (s : IMUProcessorState A O) (inp : IMUInputs) : IMUProcessorState A O :=
  let deltaTime : ℝ := (clampedDeltaTime inp.nowMicros s.lastUpdateMicros : ℚ)
  let corrected := E.offsetUpdate s.offset inp.gyro
  let ahrs' := E.ahrsUpdateNoMagnetometer s.ahrs corrected.2 inp.accel deltaTime
  let fusionEuler' := quatToEuler (E.ahrsGetQuaternion ahrs')
  let gyroStep := updateGyroIntegration s.gyroQuaternion corrected.2 deltaTime
  { ahrs := ahrs',
    offset := corrected.1,
    fusionEuler := fusionEuler',
    gyroQuaternion := gyroStep.1,
    gyroscopeDegPerSec := corrected.2,
    accelerometer := inp.accel,
    temperatureC := inp.temperatureC,
    accumulatedGyroX := gyroStep.2.1,
    accumulatedGyroY := gyroStep.2.2.1,
    accumulatedGyroZ := gyroStep.2.2.2,
    lastUpdateMicros := inp.nowMicros }

/-- The `IMUData` telemetry snapshot: fourteen scalar fields in fixed
order, as defined in `IMUProcessor.h`. -/
structure IMUData where
  ax : ℝ
  ay : ℝ
  az : ℝ
  gx : ℝ
  gy : ℝ
  gz : ℝ
  accumulatedGyroX : ℝ
  accumulatedGyroY : ℝ
  accumulatedGyroZ : ℝ
  fusionRoll : ℝ
  fusionPitch : ℝ
  fusionYaw : ℝ
  temperatureC : ℝ
  timeSec : ℝ

/-- `IMUProcessor::getData`: copy the processor's current fields into a
fresh `IMUData` snapshot. -/
noncomputable def getData {A O : Type} (s : IMUProcessorState A O) : IMUData :=
  { ax := s.accelerometer.x,
    ay := s.accelerometer.y,
    az := s.accelerometer.z,
    gx := s.gyroscopeDegPerSec.x,
    gy := s.gyroscopeDegPerSec.y,
    gz := s.gyroscopeDegPerSec.z,
    accumulatedGyroX := s.accumulatedGyroX,
    accumulatedGyroY := s.accumulatedGyroY,
    accumulatedGyroZ := s.accumulatedGyroZ,
    fusionRoll := s.fusionEuler.roll,
    fusionPitch := s.fusionEuler.pitch,
    fusionYaw := s.fusionEuler.yaw,
    temperatureC := s.temperatureC,
    timeSec := (s.lastUpdateMicros : ℝ) / 1000000 }

/-- The per-channel state of `Transport`: the `active` kill switch, the last
published snapshot, and the `dirty` flag. The `{data, dirty}` pair is
guarded by the channel's mutex in the source; the lock makes each of
`Transport::update` and the worker's check-clear-transmit section atomic,
which is what licenses modelling them as single steps here. -/
structure TransportState where
  active : Bool
  data : IMUData
  dirty : Bool

/-- `Transport::update`: under the lock, overwrite the snapshot and set the
dirty flag. -/
def transportUpdate (s : TransportState) (d : IMUData) : TransportState :=
  { s with data := d, dirty := true }

/-- One cycle of the `Transport::task` worker loop: if inactive, do nothing;
otherwise, under the lock, if dirty then clear the flag and transmit the
held snapshot. Returns the new state and the list of snapshots transmitted
during the cycle. -/
def workerCycle (s : TransportState) : TransportState × List IMUData :=
  if s.active then
    if s.dirty then ({ s with dirty := false }, [s.data]) else (s, [])
  else (s, [])

/-- Run `n` consecutive worker cycles, concatenating all transmissions. -/
def workerRun : ℕ → TransportState → TransportState × List IMUData
  | 0, s => (s, [])
  | n + 1, s =>
    let step := workerCycle s
    let rest := workerRun n step.1
    (rest.1, step.2 ++ rest.2)

/-- The whitespace set trimmed by the BLE control write handler
(`BluetoothEmitter::onWrite`): carriage return, newline, tab, space. -/
def bleIsSpace (c : Char) : Bool :=
  c = '\r' ∨ c = '\n' ∨ c = '\t' ∨ c = ' '

/-- The character set removed by the Arduino `String::trim` used on the
serial command path: the C `isspace` class (space, tab, newline, vertical
tab, form feed, carriage return). -/
def serialIsSpace (c : Char) : Bool :=
  c = ' ' ∨ c = '\t' ∨ c = '\n' ∨ c = '\x0b' ∨ c = '\x0c' ∨ c = '\r'

/-- C `toupper` in the default locale: map a lowercase ASCII letter to the
corresponding uppercase letter, leave every other byte unchanged. -/
def toUpperAscii (c : Char) : Char :=
  if 'a' ≤ c ∧ c ≤ 'z' then Char.ofNat (c.toNat - 32) else c

/-- Drop the characters satisfying `p` from both ends of a character list
(the functional rendering of the source's leading/trailing index scans). -/
def trimWith (p : Char → Bool) (l : List Char) : List Char :=
  ((l.dropWhile p).reverse.dropWhile p).reverse

/-- The normalization applied by `BluetoothEmitter::onWrite` to an inbound
write payload: trim `bleIsSpace` from both ends, then uppercase. -/
def bleNormalize (value : List Char) : List Char :=
  (trimWith bleIsSpace value).map toUpperAscii

/-- The normalization applied on the serial path before dispatch:
Arduino `trim` then `toUpperCase`. -/
def serialNormalize (line : List Char) : List Char :=
  (trimWith serialIsSpace line).map toUpperAscii

/-- The single recognized command token. -/
def resetToken : List Char := String.toList "RESET_GYRO"

/-- `BluetoothEmitter::onWrite`: normalize the payload and invoke
`resetGyroIntegration` exactly when it equals `RESET_GYRO`; the handler
writes nothing back to the sender. -/
def bleOnWrite {A O : Type} (s : IMUProcessorState A O) (value : List Char) :
    IMUProcessorState A O :=
  if bleNormalize value = resetToken then resetGyroIntegration s else s

/-- The command-dispatch step shared by `Transport::processCommand` and the
serial handlers: compare the normalized line against `RESET_GYRO` and reset
on a match, silently ignoring everything else. -/
def dispatchLine {A O : Type} (s : IMUProcessorState A O) (line : List Char) :
    IMUProcessorState A O :=
  if serialNormalize line = resetToken then resetGyroIntegration s else s

/-- The serial channel's inbound state: the processor it controls plus the
`serialCmdBuffer` line accumulator. -/
structure SerialState (A O : Type) where
  proc : IMUProcessorState A O
  buf : List Char

/-- One step of the serial command loop (`SerialTransport::transmit` /
`loop()` in `main.cpp`) on a single received byte: a terminator takes the
accumulated buffer as the line, clears the buffer, normalizes the line and
dispatches it; any other byte is appended while the buffer is shorter than
128 bytes, and otherwise the buffer is discarded and restarted. -/
def serialByteStep {A O : Type} (s : SerialState A O) (c : Char) :
    SerialState A O :=
  if c = '\n' ∨ c = '\r' then
    { proc := dispatchLine s.proc s.buf, buf := [] }
  else
    if s.buf.length < 128 then { s with buf := s.buf ++ [c] }
    else { s with buf := [] }

/-- Feed a whole byte stream through the serial command loop. -/
def serialRun {A O : Type} (s : SerialState A O) (bytes : List Char) :
    SerialState A O :=
  bytes.foldl serialByteStep s

/-- The telemetry emission part of one `loop()` cycle in `main.cpp`. The
source evaluates `g_bleServer->getConnectedCount() > 0` twice per cycle —
once to guard the serial JSON print and again to guard the BLE notify — and
the count is mutated asynchronously by the BLE host task, so the two reads
are independent samples, taken here as separate parameters in program
order. The serial record is emitted when the first read is false, the
14-float BLE packet when the second read is true; each record is the same
fourteen snapshot scalars in fixed order. -/
def loopEmissions (connectedAtSerialCheck connectedAtBleCheck : Bool)
    (d : IMUData) : Option (List ℝ) × Option (List ℝ) :=
  (if connectedAtSerialCheck then none
   else some [d.ax, d.ay, d.az, d.gx, d.gy, d.gz, d.accumulatedGyroX,
              d.accumulatedGyroY, d.accumulatedGyroZ, d.fusionRoll,
              d.fusionPitch, d.fusionYaw, d.temperatureC, d.timeSec],
   if connectedAtBleCheck then
     some [d.ax, d.ay, d.az, d.gx, d.gy, d.gz, d.accumulatedGyroX,
           d.accumulatedGyroY, d.accumulatedGyroZ, d.fusionRoll,
           d.fusionPitch, d.fusionYaw, d.temperatureC, d.timeSec]
   else none)

/-- A concrete processor state used to instantiate universally quantified
theorems at specific inputs. -/
def sampleProcState : IMUProcessorState Unit Unit :=
  { ahrs := (), offset := (), fusionEuler := ⟨0, 0, 0⟩,
    gyroQuaternion := ⟨0, 1, 0, 0⟩, gyroscopeDegPerSec := ⟨0, 0, 0⟩,
    accelerometer := ⟨0, 0, 0⟩, temperatureC := 0,
    accumulatedGyroX := 90, accumulatedGyroY := 45, accumulatedGyroZ := 30,
    lastUpdateMicros := 0 }

/- ------------------------------------------------------------------ -/
/- Theorems                                                            -/
/- ------------------------------------------------------------------ -/

/-- Claim C3: calling `resetGyroIntegration` twice in a row yields the same
zeroed state (identity gyro quaternion and zeroed accumulated angles) as
calling it once, and the reset leaves the fusion engine state and the fusion
Euler orientation unchanged. -/
theorem reset_idempotent_and_fusion_untouched {A O : Type}
    (s : IMUProcessorState A O) :
    resetGyroIntegration (resetGyroIntegration s) = resetGyroIntegration s ∧
    (resetGyroIntegration s).gyroQuaternion = identityQuaternion ∧
    (resetGyroIntegration s).accumulatedGyroX = 0 ∧
    (resetGyroIntegration s).accumulatedGyroY = 0 ∧
    (resetGyroIntegration s).accumulatedGyroZ = 0 ∧
    (resetGyroIntegration s).ahrs = s.ahrs ∧
    (resetGyroIntegration s).fusionEuler = s.fusionEuler :=
  ⟨rfl, rfl, rfl, rfl, rfl, rfl, rfl⟩

/-- Claim C2: when the wrapped uint32 elapsed-microsecond count is zero (or
wrapped around) or exceeds 100000, the integration step uses the fixed
fallback delta 0.01 s; for every elapsed count in (0, 100000] the raw
delta `elapsed / 1e6` is used unchanged. -/
theorem delta_time_clamp (nowMicros lastMicros : ℕ) :
    ((((nowMicros : ℤ) - lastMicros) % 2 ^ 32 = 0 ∨
        100000 < ((nowMicros : ℤ) - lastMicros) % 2 ^ 32) →
      clampedDeltaTime nowMicros lastMicros = 1 / 100) ∧
    (0 < ((nowMicros : ℤ) - lastMicros) % 2 ^ 32 →
      ((nowMicros : ℤ) - lastMicros) % 2 ^ 32 ≤ 100000 →
      clampedDeltaTime nowMicros lastMicros =
        (((((nowMicros : ℤ) - lastMicros) % 2 ^ 32 : ℤ) : ℚ) / 1000000)) := by
  constructor
  · intro h
    unfold clampedDeltaTime deltaTimeRaw
    rw [if_pos]
    rcases h with h | h
    · left
      rw [h]
      norm_num
    · right
      have hq : (100000 : ℚ) < ((((nowMicros : ℤ) - lastMicros) % 2 ^ 32 : ℤ) : ℚ) := by
        exact_mod_cast h
      rw [div_lt_div_iff₀ (by norm_num) (by norm_num)]
      linarith
  · intro h1 h2
    unfold clampedDeltaTime deltaTimeRaw
    rw [if_neg]
    push_neg
    have hq1 : (0 : ℚ) < ((((nowMicros : ℤ) - lastMicros) % 2 ^ 32 : ℤ) : ℚ) := by
      exact_mod_cast h1
    have hq2 : ((((nowMicros : ℤ) - lastMicros) % 2 ^ 32 : ℤ) : ℚ) ≤ 100000 := by
      exact_mod_cast h2
    constructor
    · positivity
    · rw [div_le_div_iff₀ (by norm_num) (by norm_num)]
      linarith

/-- Witness for claim C2: with `now = 5000` and `last = 0` the elapsed count
5000 lies in (0, 100000] and the raw delta 5000 / 1e6 = 1/200 s is used. -/
theorem delta_time_clamp_witness :
    (0 < (((5000 : ℕ) : ℤ) - ((0 : ℕ) : ℤ)) % 2 ^ 32 ∧
      (((5000 : ℕ) : ℤ) - ((0 : ℕ) : ℤ)) % 2 ^ 32 ≤ 100000) ∧
    clampedDeltaTime 5000 0 = 1 / 200 := by
  refine ⟨⟨by decide, by decide⟩, ?_⟩
  have h := (delta_time_clamp 5000 0).2 (by decide) (by decide)
  rw [h]
  norm_num

/-- Counterexample to claim C9 as stated: the connected count is read twice
per cycle and can change between the reads; with no peer at the serial
check and a peer at the BLE check (one connected in between), the cycle
emits both the serial JSON record and the BLE packet. -/
theorem telemetry_paths_both_emitted :
    (loopEmissions false true
        ⟨0, 0, 0, 0, 0, 0, 0, 0, 0, 0, 0, 0, 0, 0⟩).1.isSome = true ∧
    (loopEmissions false true
        ⟨0, 0, 0, 0, 0, 0, 0, 0, 0, 0, 0, 0, 0, 0⟩).2.isSome = true :=
  ⟨rfl, rfl⟩

/-- Claim C9 as amended: the serial record is emitted exactly when the
connected check guarding it reads false, and the BLE packet exactly when
the check guarding it reads true; whenever the two reads of one cycle
agree (connection state stable across the cycle), the two telemetry paths
are mutually exclusive — never both. -/
theorem telemetry_paths_exclusive_stable (bleConnected : Bool)
    (d : IMUData) :
    ((loopEmissions bleConnected bleConnected d).1 = none ∨
      (loopEmissions bleConnected bleConnected d).2 = none) ∧
    (loopEmissions bleConnected bleConnected d).1.isSome = !bleConnected ∧
    (loopEmissions bleConnected bleConnected d).2.isSome = bleConnected := by
  cases bleConnected <;> simp [loopEmissions]

/-- A worker whose dirty flag is clear transmits nothing and keeps its
state, over any number of cycles. -/
theorem workerRun_clean : ∀ (n : ℕ) (s : TransportState),
    s.dirty = false → workerRun n s = (s, [])
  | 0, _, _ => rfl
  | n + 1, s, h => by
    have hc : workerCycle s = (s, []) := by
      unfold workerCycle
      rw [h]
      split <;> simp
    simp [workerRun, hc, workerRun_clean n s h]

/-- Claim C6: after a single `Transport::update` with snapshot `d` and no
further update, an active channel's worker transmits `d` exactly once over
any positive number of worker cycles: the first dirty cycle clears the flag
and transmits inside the same critical section, and every later cycle
transmits nothing. -/
theorem dirty_edge_delivery (s : TransportState) (d : IMUData) (n : ℕ)
    (ha : s.active = true) (hn : 1 ≤ n) :
    (workerRun n (transportUpdate s d)).2 = [d] := by
  cases n with
  | zero => omega
  | succ m =>
    have hstep : workerCycle (transportUpdate s d) =
        ({ active := s.active, data := d, dirty := false }, [d]) := by
      unfold workerCycle transportUpdate
      rw [ha]
      simp
    have hclean :=
      workerRun_clean m { active := s.active, data := d, dirty := false } rfl
    simp [workerRun, hstep, hclean]

/-- Witness for claim C6: a concrete active channel given one update is
observed to transmit the snapshot exactly once over three worker cycles. -/
theorem dirty_edge_delivery_witness :
    (TransportState.mk true ⟨0, 0, 0, 0, 0, 0, 0, 0, 0, 0, 0, 0, 0, 0⟩
        false).active = true ∧
    1 ≤ 3 ∧
    (workerRun 3 (transportUpdate
        (TransportState.mk true ⟨0, 0, 0, 0, 0, 0, 0, 0, 0, 0, 0, 0, 0, 0⟩
          false)
        ⟨1, 2, 3, 4, 5, 6, 7, 8, 9, 10, 11, 12, 13, 14⟩)).2 =
      [⟨1, 2, 3, 4, 5, 6, 7, 8, 9, 10, 11, 12, 13, 14⟩] :=
  ⟨rfl, by decide, dirty_edge_delivery _ _ 3 rfl (by decide)⟩

/-- Feeding any bytes through the serial command loop keeps the buffer
within the 128-byte bound, provided it starts within the bound. -/
theorem serialRun_buf_le {A O : Type} : ∀ (bytes : List Char)
    (st : SerialState A O), st.buf.length ≤ 128 →
    (serialRun st bytes).buf.length ≤ 128
  | [], _, h => h
  | c :: rest, st, h => by
    have hstep : (serialByteStep st c).buf.length ≤ 128 := by
      unfold serialByteStep
      split
      · simp
      · split
        · simpa using by omega
        · simp
    exact serialRun_buf_le rest _ hstep

/-- Claim C8: for every byte stream fed to the serial line accumulator
(starting from the empty buffer), the command buffer's length never exceeds
128 bytes; an over-long line is discarded and accumulation restarts, and the
step function is total, so no input crashes it or surfaces an error. -/
theorem serial_buffer_bounded {A O : Type} (s : IMUProcessorState A O)
    (bytes : List Char) :
    (serialRun ⟨s, []⟩ bytes).buf.length ≤ 128 :=
  serialRun_buf_le bytes ⟨s, []⟩ (by simp)

/-- Claim C7: on each inbound path the command handler trims and uppercases
the payload, resets the gyro integrator exactly when the normalized token is
`RESET_GYRO`, and leaves the processor state untouched on any other token
(with no reply sent: the handlers produce no output). -/
theorem command_normalize_dispatch {A O : Type} (s : IMUProcessorState A O)
    (value buf : List Char) :
    (bleOnWrite s value =
      if bleNormalize value = resetToken then resetGyroIntegration s else s) ∧
    (serialByteStep ⟨s, buf⟩ '\n' =
      ⟨if serialNormalize buf = resetToken then resetGyroIntegration s else s,
       []⟩) ∧
    (bleNormalize value ≠ resetToken → bleOnWrite s value = s) ∧
    (serialNormalize buf ≠ resetToken →
      serialByteStep ⟨s, buf⟩ '\n' = ⟨s, []⟩) := by
  refine ⟨rfl, ?_, ?_, ?_⟩
  · unfold serialByteStep dispatchLine
    rw [if_pos (Or.inl rfl)]
  · intro h
    unfold bleOnWrite
    rw [if_neg h]
  · intro h
    unfold serialByteStep dispatchLine
    rw [if_pos (Or.inl rfl), if_neg h]

/-- Witness for claim C7: the token `hello` normalizes to `HELLO`, is not
`RESET_GYRO`, and leaves a concrete processor state unchanged on both the
BLE and the serial paths. -/
theorem command_normalize_dispatch_witness :
    bleNormalize (String.toList " hello ") ≠ resetToken ∧
    serialNormalize (String.toList " hello ") ≠ resetToken ∧
    bleOnWrite sampleProcState (String.toList " hello ") = sampleProcState ∧
    serialByteStep ⟨sampleProcState, String.toList " hello "⟩ '\n' =
      ⟨sampleProcState, []⟩ :=
  ⟨by decide, by decide,
   (command_normalize_dispatch sampleProcState (String.toList " hello ")
      (String.toList " hello ")).2.2.1 (by decide),
   (command_normalize_dispatch sampleProcState (String.toList " hello ")
      (String.toList " hello ")).2.2.2 (by decide)⟩

/-- While no terminator arrives and the bound is respected, the serial loop
appends each byte to the accumulation buffer and leaves the processor
untouched. -/
theorem serialRun_accumulate {A O : Type} : ∀ (cs : List Char)
    (s : IMUProcessorState A O) (buf : List Char),
    (∀ c ∈ cs, ¬(c = '\n' ∨ c = '\r')) → buf.length + cs.length ≤ 128 →
    serialRun ⟨s, buf⟩ cs = ⟨s, buf ++ cs⟩
  | [], s, buf, _, _ => by simp [serialRun]
  | c :: rest, s, buf, hnt, hlen => by
    have hc : ¬(c = '\n' ∨ c = '\r') := hnt c (List.mem_cons_self c rest)
    have hstep : serialByteStep ⟨s, buf⟩ c = ⟨s, buf ++ [c]⟩ := by
      unfold serialByteStep
      rw [if_neg hc, if_pos (show buf.length < 128 by simp at hlen; omega)]
    calc serialRun ⟨s, buf⟩ (c :: rest)
        = serialRun ⟨s, buf ++ [c]⟩ rest := by
          simp [serialRun, hstep]
      _ = ⟨s, (buf ++ [c]) ++ rest⟩ :=
          serialRun_accumulate rest s (buf ++ [c])
            (fun d hd => hnt d (List.mem_cons_of_mem c hd))
            (by simp at hlen ⊢; omega)
      _ = ⟨s, buf ++ (c :: rest)⟩ := by simp

/-- Claim C10: a single oversized line is not dropped in its entirety: after
128 bytes the accumulator is cleared mid-line (the 129th byte is dropped
with it) and the following bytes accumulate afresh, so an oversized line
whose final suffix normalizes to `RESET_GYRO` still triggers
`resetGyroIntegration` when its terminator arrives. -/
theorem oversized_line_suffix_dispatch {A O : Type}
    (s : IMUProcessorState A O) :
    serialRun ⟨s, []⟩
        (List.replicate 128 'A' ++ ['B'] ++ String.toList "reset_gyro" ++
          ['\n']) =
      ⟨resetGyroIntegration s, []⟩ := by
  have h1 : serialRun ⟨s, []⟩ (List.replicate 128 'A') =
      ⟨s, List.replicate 128 'A'⟩ :=
    serialRun_accumulate _ s []
      (by
        intro c hc
        rw [List.eq_of_mem_replicate hc]
        decide)
      (by simp)
  have h2 : serialByteStep ⟨s, List.replicate 128 'A'⟩ 'B' = ⟨s, []⟩ := by
    unfold serialByteStep
    rw [if_neg (by decide), if_neg (by simp)]
  have h3 : serialRun ⟨s, []⟩ (String.toList "reset_gyro") =
      ⟨s, String.toList "reset_gyro"⟩ :=
    serialRun_accumulate _ s [] (by decide) (by decide)
  have h4 : serialByteStep ⟨s, String.toList "reset_gyro"⟩ '\n' =
      ⟨resetGyroIntegration s, []⟩ := by
    unfold serialByteStep dispatchLine
    rw [if_pos (Or.inl rfl),
      if_pos (show serialNormalize (String.toList "reset_gyro") = resetToken
        by decide)]
  have hsplit : serialRun ⟨s, []⟩
      (List.replicate 128 'A' ++ ['B'] ++ String.toList "reset_gyro" ++
        ['\n']) =
      serialByteStep
        (serialRun
          (serialByteStep (serialRun ⟨s, []⟩ (List.replicate 128 'A')) 'B')
          (String.toList "reset_gyro")) '\n' := by
    simp [serialRun, List.foldl_append]
  rw [hsplit, h1, h2, h3, h4]

/-- The first wrapping loop is the identity on angles at or above -180. -/
theorem wrapUp_eq_self {a : ℝ} (h : -180 ≤ a) : wrapUp a = a := by
  rw [wrapUp]
  exact dif_neg (by linarith)

/-- The second wrapping loop is the identity on angles at or below 180. -/
theorem wrapDown_eq_self {a : ℝ} (h : a ≤ 180) : wrapDown a = a := by
  rw [wrapDown]
  exact dif_neg (by linarith)

/-- `wrapAngle` is the identity on the interval (-180, 180]. -/
theorem wrapAngle_eq_self {a : ℝ} (h1 : -180 < a) (h2 : a ≤ 180) :
    wrapAngle a = a := by
  unfold wrapAngle
  rw [wrapUp_eq_self (le_of_lt h1), wrapDown_eq_self h2]

/-- Converting a radian value in (-pi, pi] to degrees lands in (-180, 180]. -/
theorem FusionRadiansToDegrees_mem_Ioc {r : ℝ} (h1 : -Real.pi < r)
    (h2 : r ≤ Real.pi) :
    FusionRadiansToDegrees r ∈ Set.Ioc (-180 : ℝ) 180 := by
  have hpi : 0 < Real.pi := Real.pi_pos
  have hc : 0 < 180 / Real.pi := by positivity
  unfold FusionRadiansToDegrees
  constructor
  · have h3 : -Real.pi * (180 / Real.pi) < r * (180 / Real.pi) :=
      mul_lt_mul_of_pos_right h1 hc
    have he : -Real.pi * (180 / Real.pi) = -180 := by
      field_simp
      ring
    linarith
  · have h3 : r * (180 / Real.pi) ≤ Real.pi * (180 / Real.pi) :=
      mul_le_mul_of_nonneg_right h2 (le_of_lt hc)
    have he : Real.pi * (180 / Real.pi) = 180 := by field_simp
    linarith

/-- The modelled `atan2` always returns a value in (-pi, pi]. -/
theorem atan2_mem_Ioc (y x : ℝ) : atan2 y x ∈ Set.Ioc (-Real.pi) Real.pi :=
  Complex.arg_mem_Ioc _

/-- Every Euler angle produced by the quaternion-to-Euler conversion lies in
(-180, 180] degrees. -/
theorem quatToEuler_mem (q : FusionQuaternion) :
    (quatToEuler q).roll ∈ Set.Ioc (-180 : ℝ) 180 ∧
    (quatToEuler q).pitch ∈ Set.Ioc (-180 : ℝ) 180 ∧
    (quatToEuler q).yaw ∈ Set.Ioc (-180 : ℝ) 180 := by
  have hpi : 0 < Real.pi := Real.pi_pos
  refine ⟨?_, ?_, ?_⟩
  · obtain ⟨h1, h2⟩ :=
      atan2_mem_Ioc (q.w * q.x + q.y * q.z) ((0.5 - q.y * q.y) - q.x * q.x)
    exact FusionRadiansToDegrees_mem_Ioc h1 h2
  · have h1 := Real.neg_pi_div_two_le_arcsin (2 * (q.w * q.y - q.z * q.x))
    have h2 := Real.arcsin_le_pi_div_two (2 * (q.w * q.y - q.z * q.x))
    exact FusionRadiansToDegrees_mem_Ioc (by linarith) (by linarith)
  · obtain ⟨h1, h2⟩ :=
      atan2_mem_Ioc (q.w * q.z + q.x * q.y) ((0.5 - q.y * q.y) - q.z * q.z)
    exact FusionRadiansToDegrees_mem_Ioc h1 h2

/-- Wrapping any Euler angle of any quaternion lands in (-180, 180]. -/
theorem wrapAngle_euler_mem (q : FusionQuaternion) :
    wrapAngle (quatToEuler q).roll ∈ Set.Ioc (-180 : ℝ) 180 ∧
    wrapAngle (quatToEuler q).pitch ∈ Set.Ioc (-180 : ℝ) 180 ∧
    wrapAngle (quatToEuler q).yaw ∈ Set.Ioc (-180 : ℝ) 180 := by
  obtain ⟨hr, hp, hy⟩ := quatToEuler_mem q
  rw [wrapAngle_eq_self hr.1 hr.2, wrapAngle_eq_self hp.1 hp.2,
    wrapAngle_eq_self hy.1 hy.2]
  exact ⟨hr, hp, hy⟩

/-- The three accumulated-angle outputs of one gyro integration step lie in
(-180, 180]. -/
theorem updateGyroIntegration_outputs_mem (q : FusionQuaternion)
    (g : FusionVector) (dt : ℝ) :
    (updateGyroIntegration q g dt).2.1 ∈ Set.Ioc (-180 : ℝ) 180 ∧
    (updateGyroIntegration q g dt).2.2.1 ∈ Set.Ioc (-180 : ℝ) 180 ∧
    (updateGyroIntegration q g dt).2.2.2 ∈ Set.Ioc (-180 : ℝ) 180 :=
  wrapAngle_euler_mem (updateGyroIntegration q g dt).1

/-- Claim C1: after every `IMUProcessor::update` call, whatever the state
and the sensor inputs, each accumulated-gyro angle exposed in the telemetry
snapshot lies in the half-open interval (-180, 180] degrees, the wrapping
being the repeated +-360 correction of `wrapAngle`. -/
theorem accumulated_angles_wrapped {A O : Type} (E : FusionEngine A O)
    (s : IMUProcessorState A O) (inp : IMUInputs) :
    (IMUProcessorUpdate E s inp).accumulatedGyroX ∈ Set.Ioc (-180 : ℝ) 180 ∧
    (IMUProcessorUpdate E s inp).accumulatedGyroY ∈ Set.Ioc (-180 : ℝ) 180 ∧
    (IMUProcessorUpdate E s inp).accumulatedGyroZ ∈ Set.Ioc (-180 : ℝ) 180 :=
  updateGyroIntegration_outputs_mem _ _ _

/-- Euclidean norm of a three-component vector (the source's `omegaMag`
computation). -/
noncomputable def vecNorm (v : FusionVector) : ℝ :=
  Real.sqrt (v.x * v.x + v.y * v.y + v.z * v.z)

/-- The angular rate converted from deg/s to rad/s, component-wise. -/
noncomputable def omegaRadPerSec (g : FusionVector) : FusionVector :=
  ⟨FusionDegreesToRadians g.x, FusionDegreesToRadians g.y,
   FusionDegreesToRadians g.z⟩

/-- Stated from the spec's words, for comparison with the code: the
exponential-map delta quaternion `(cos(theta/2), sin(theta/2) * unit omega)`
with rotation angle `theta = |omega| * dt`. -/
noncomputable def specDeltaQuaternion (omega : FusionVector) (dt : ℝ) :
    FusionQuaternion :=
  ⟨Real.cos (vecNorm omega * dt / 2),
   Real.sin (vecNorm omega * dt / 2) * (omega.x / vecNorm omega),
   Real.sin (vecNorm omega * dt / 2) * (omega.y / vecNorm omega),
   Real.sin (vecNorm omega * dt / 2) * (omega.z / vecNorm omega)⟩

/-- The quaternion produced by one gyro integration step, written with the
projections resolved: the source's guarded compose-and-renormalise. -/
theorem updateGyroIntegration_fst (q : FusionQuaternion) (g : FusionVector)
    (dt : ℝ) :
    (updateGyroIntegration q g dt).1 =
      if 0 < vecNorm (omegaRadPerSec g) ∧ 0 < dt then
        quatNormalise (quatMul q
          ⟨Real.cos (0.5 * (vecNorm (omegaRadPerSec g) * dt)),
           (omegaRadPerSec g).x *
             (Real.sin (0.5 * (vecNorm (omegaRadPerSec g) * dt)) /
               vecNorm (omegaRadPerSec g)),
           (omegaRadPerSec g).y *
             (Real.sin (0.5 * (vecNorm (omegaRadPerSec g) * dt)) /
               vecNorm (omegaRadPerSec g)),
           (omegaRadPerSec g).z *
             (Real.sin (0.5 * (vecNorm (omegaRadPerSec g) * dt)) /
               vecNorm (omegaRadPerSec g))⟩)
      else q := rfl

/-- Claim C4: with positive elapsed time, the integrator advances by
exponential-map integration exactly as the spec states: when the rad/s rate
has positive magnitude the new state is
`normalise (state * (cos(theta/2), sin(theta/2) * unit omega))` with
`theta = |omega| * dt` and the delta right-multiplied onto the state, and
when the magnitude is zero the quaternion is left unchanged. -/
theorem gyro_integration_exponential_map (q : FusionQuaternion)
    (g : FusionVector) (dt : ℝ) (hdt : 0 < dt) :
    (0 < vecNorm (omegaRadPerSec g) →
      (updateGyroIntegration q g dt).1 =
        quatNormalise
          (quatMul q (specDeltaQuaternion (omegaRadPerSec g) dt))) ∧
    (vecNorm (omegaRadPerSec g) = 0 →
      (updateGyroIntegration q g dt).1 = q) := by
  constructor
  · intro hm
    rw [updateGyroIntegration_fst, if_pos ⟨hm, hdt⟩]
    have harg : 0.5 * (vecNorm (omegaRadPerSec g) * dt) =
        vecNorm (omegaRadPerSec g) * dt / 2 := by ring
    unfold specDeltaQuaternion
    rw [harg]
    have hx : (omegaRadPerSec g).x *
        (Real.sin (vecNorm (omegaRadPerSec g) * dt / 2) /
          vecNorm (omegaRadPerSec g)) =
        Real.sin (vecNorm (omegaRadPerSec g) * dt / 2) *
          ((omegaRadPerSec g).x / vecNorm (omegaRadPerSec g)) := by ring
    have hy : (omegaRadPerSec g).y *
        (Real.sin (vecNorm (omegaRadPerSec g) * dt / 2) /
          vecNorm (omegaRadPerSec g)) =
        Real.sin (vecNorm (omegaRadPerSec g) * dt / 2) *
          ((omegaRadPerSec g).y / vecNorm (omegaRadPerSec g)) := by ring
    have hz : (omegaRadPerSec g).z *
        (Real.sin (vecNorm (omegaRadPerSec g) * dt / 2) /
          vecNorm (omegaRadPerSec g)) =
        Real.sin (vecNorm (omegaRadPerSec g) * dt / 2) *
          ((omegaRadPerSec g).z / vecNorm (omegaRadPerSec g)) := by ring
    rw [hx, hy, hz]
  · intro hm
    rw [updateGyroIntegration_fst, if_neg]
    rintro ⟨h1, _⟩
    rw [hm] at h1
    exact lt_irrefl 0 h1

/-- Witness for claim C4: a 180 deg/s roll rate over 1 s has positive
rad/s magnitude (namely pi), so the integration branch is exercised, and the
claimed equations hold at these inputs. -/
theorem gyro_integration_exponential_map_witness :
    (0 : ℝ) < 1 ∧
    0 < vecNorm (omegaRadPerSec ⟨180, 0, 0⟩) ∧
    ((0 < vecNorm (omegaRadPerSec ⟨180, 0, 0⟩) →
      (updateGyroIntegration ⟨1, 0, 0, 0⟩ ⟨180, 0, 0⟩ 1).1 =
        quatNormalise (quatMul ⟨1, 0, 0, 0⟩
          (specDeltaQuaternion (omegaRadPerSec ⟨180, 0, 0⟩) 1))) ∧
     (vecNorm (omegaRadPerSec ⟨180, 0, 0⟩) = 0 →
      (updateGyroIntegration ⟨1, 0, 0, 0⟩ ⟨180, 0, 0⟩ 1).1 = ⟨1, 0, 0, 0⟩)) :=
  have hm : 0 < vecNorm (omegaRadPerSec ⟨180, 0, 0⟩) := by
    unfold vecNorm omegaRadPerSec FusionDegreesToRadians
    apply Real.sqrt_pos.mpr
    have hpi : 0 < Real.pi := Real.pi_pos
    nlinarith
  ⟨one_pos, hm,
   gyro_integration_exponential_map ⟨1, 0, 0, 0⟩ ⟨180, 0, 0⟩ 1 one_pos⟩

/-- The quaternion norm is multiplicative in squared form (Euler's
four-square identity for the Hamilton product). -/
theorem quatNormSq_mul (a b : FusionQuaternion) :
    quatNormSq (quatMul a b) = quatNormSq a * quatNormSq b := by
  unfold quatNormSq quatMul
  ring

/-- Renormalising a quaternion of positive squared norm yields squared
norm exactly 1. -/
theorem quatNormSq_normalise (q : FusionQuaternion) (h : 0 < quatNormSq q) :
    quatNormSq (quatNormalise q) = 1 := by
  have hn : quatNorm q * quatNorm q = quatNormSq q :=
    Real.mul_self_sqrt (le_of_lt h)
  have hne : quatNorm q ≠ 0 := by
    intro h0
    rw [h0, mul_zero] at hn
    exact (ne_of_gt h) hn.symm
  unfold quatNormSq at hn ⊢
  unfold quatNormalise
  field_simp
  linarith

/-- The delta quaternion built by the integration step is unit-norm
whenever the rate magnitude is positive. -/
theorem delta_quaternion_normSq (v : FusionVector) (t : ℝ)
    (hm : 0 < vecNorm v) :
    quatNormSq ⟨Real.cos t, v.x * (Real.sin t / vecNorm v),
      v.y * (Real.sin t / vecNorm v), v.z * (Real.sin t / vecNorm v)⟩ = 1 := by
  have hsum : 0 ≤ v.x * v.x + v.y * v.y + v.z * v.z :=
    add_nonneg (add_nonneg (mul_self_nonneg v.x) (mul_self_nonneg v.y))
      (mul_self_nonneg v.z)
  have hms : vecNorm v * vecNorm v = v.x * v.x + v.y * v.y + v.z * v.z :=
    Real.mul_self_sqrt hsum
  have hne : vecNorm v ≠ 0 := ne_of_gt hm
  unfold quatNormSq
  field_simp
  nlinarith [Real.sin_sq_add_cos_sq t, hms]

/-- One integration step preserves unit squared norm of the integrator
quaternion. -/
theorem updateGyroIntegration_normSq (q : FusionQuaternion)
    (g : FusionVector) (dt : ℝ) (h : quatNormSq q = 1) :
    quatNormSq (updateGyroIntegration q g dt).1 = 1 := by
  rw [updateGyroIntegration_fst]
  split
  · rename_i hc
    apply quatNormSq_normalise
    rw [quatNormSq_mul, h, one_mul,
      delta_quaternion_normSq (omegaRadPerSec g)
        (0.5 * (vecNorm (omegaRadPerSec g) * dt)) hc.1]
    exact one_pos
  · exact h

/-- Any sequence of integration steps (each a call of
`updateGyroIntegration` on a rate and a delta time), folded from a starting
quaternion. -/
noncomputable def integrateSteps (q0 : FusionQuaternion)
    (steps : List (FusionVector × ℝ)) : FusionQuaternion :=
  steps.foldl (fun q step => (updateGyroIntegration q step.1 step.2).1) q0

/-- The unit-norm invariant carries through any sequence of steps. -/
theorem integrateSteps_normSq : ∀ (steps : List (FusionVector × ℝ))
    (q : FusionQuaternion), quatNormSq q = 1 →
    quatNormSq (integrateSteps q steps) = 1
  | [], _, h => h
  | st :: rest, q, h =>
    integrateSteps_normSq rest _ (updateGyroIntegration_normSq q st.1 st.2 h)

/-- Claim C5: renormalisation follows every composition (it is built into
the integration step), and after any sequence of N integration steps from
the identity quaternion the integrator quaternion's norm stays within 1e-5
of 1 — in this real-number model the norm is exactly 1. -/
theorem gyro_quaternion_norm_bounded (steps : List (FusionVector × ℝ)) :
    |quatNorm (integrateSteps identityQuaternion steps) - 1| ≤ 1 / 100000 := by
  have h1 : quatNormSq (integrateSteps identityQuaternion steps) = 1 :=
    integrateSteps_normSq steps identityQuaternion
      (by unfold quatNormSq identityQuaternion; norm_num)
  have h2 : quatNorm (integrateSteps identityQuaternion steps) = 1 := by
    unfold quatNorm
    rw [h1, Real.sqrt_one]
  rw [h2]
  norm_num

end Firmware
